import Mathlib

/-!
# Verification of the pybench result-aggregation pipeline

Shallow embedding of the statistical result-aggregation and comparison-status
logic of `benchmark_runner.py` (`_process_benchmark_results`,
`_process_scaling_results`, `_process_scaling_result`,
`_determine_performance_status`) and of the interpreter validation in
`benchmarks/environment.py` (`PythonEnvironment._validate_interpreter`).

Modelling choices:
* Python floats are modelled as exact rationals (`ℚ`); the one square root in
  the pipeline (`statistics.stdev`) lands in `ℝ`.
* Python dicts (which iterate in insertion order) are modelled as association
  lists `List (String × _)`; insertion `d[k] = v` during a left-to-right loop
  appends in processing order.
* Python exceptions are modelled with `Except`: a raised exception aborts the
  whole call, so a loop that can raise returns `Except PyErr _`.
* The `f"{x:.2f}%"` formatting of relative performance is presentational; the
  embedding stores the unformatted numeric value in an `Option ℚ` field
  (`none` models the Python `None` default of the dataclass field).
-/

namespace PyBench

/-- Python exceptions that the embedded code can raise. -/
inductive PyErr where
  | indexError
  | typeError
deriving DecidableEq, Repr

/-- Embeds `statistics.mean`: the sum of the data divided by its length
(CPython computes this exactly over fractions, matching `ℚ`). -/
def statistics_mean (xs : List ℚ) : ℚ :=
  xs.sum / xs.length

/-- Embeds `statistics.median`: sort ascending; the middle element when the
length is odd, the average of the two middle elements when it is even. -/
def statistics_median (xs : List ℚ) : ℚ :=
  let s := xs.insertionSort (fun a b => a ≤ b)
  let n := xs.length
  if n % 2 = 1 then s.getD (n / 2) 0
  else (s.getD (n / 2 - 1) 0 + s.getD (n / 2) 0) / 2

/-- Embeds Python `min` on a (nonempty) list; 0 on the empty list, which the
pipeline never reaches because empty series are skipped. -/
def pyListMin : List ℚ → ℚ
  | [] => 0
  | x :: rest => rest.foldl min x

/-- Embeds Python `max` on a (nonempty) list; 0 on the empty list. -/
def pyListMax : List ℚ → ℚ
  | [] => 0
  | x :: rest => rest.foldl max x

/-- The sample variance `Σ (x - mean)² / (n - 1)` underlying
`statistics.stdev` (CPython computes it exactly before taking the root). -/
def sampleVariance (xs : List ℚ) : ℚ :=
  (xs.map (fun x => (x - statistics_mean xs) ^ 2)).sum / ((xs.length : ℚ) - 1)

/-- Embeds `statistics.stdev`: the square root of the sample variance. -/
noncomputable def statistics_stdev (xs : List ℚ) : ℝ :=
  Real.sqrt (sampleVariance xs)

/-- Embeds the dataclass `StatisticalResult` of `benchmark_runner.py`. -/
structure StatisticalResult where
  mean : ℚ
  median : ℚ
  stddev : ℝ
  min : ℚ
  max : ℚ
  iterations : List ℚ

/-- Embeds the `StatisticalResult(...)` construction that appears verbatim at
both aggregation sites (`_process_benchmark_results` lines 457-464 and
`_process_scaling_results` lines 392-400):
`stddev = statistics.stdev(durations) if len(durations) > 1 else 0`. -/
noncomputable def buildStats (durations : List ℚ) : StatisticalResult :=
  { mean := statistics_mean durations
    median := statistics_median durations
    stddev := if durations.length > 1 then statistics_stdev durations else 0
    min := pyListMin durations
    max := pyListMax durations
    iterations := durations }

/-- Embeds `_determine_performance_status`: classify a relative-performance
percentage into `improved` / `similar` / `degraded` with the ±10% threshold,
with the directions swapped for scaling tests. -/
def determine_performance_status (relative_perf : ℚ) (is_scaling : Bool) : String :=
  if is_scaling then
    if relative_perf > 110 then "improved"
    else if relative_perf < 90 then "degraded"
    else "similar"
  else
    if relative_perf < 90 then "improved"
    else if relative_perf > 110 then "degraded"
    else "similar"

/-- Embeds the dataclass `RegularBenchmarkResult`. `relative_performance`
holds the numeric value that the source formats as `f"{x:.2f}%"`. -/
structure RegularBenchmarkResult where
  status : String
  duration : ℚ
  relative_performance : Option ℚ := none
  statistical_data : Option StatisticalResult := none

/-- One entry of a `scaling_tests` list in the raw benchmark data consumed by
`_process_scaling_results`: a dict with keys `threads`, `duration`, `speedup`
and optional `ops_per_sec` / `cpu_usage` / `memory_usage`. -/
structure ScalingTest where
  threads : ℤ
  duration : ℚ
  speedup : ℚ
  ops_per_sec : Option ℚ := none
  cpu_usage : Option ℚ := none
  memory_usage : Option ℚ := none
deriving DecidableEq

/-- One run recorded in `scaling_data`: a dict carrying a `scaling_tests`
list. -/
structure ScalingRun where
  scaling_tests : List ScalingTest
deriving DecidableEq

/-- The per-version input of the scaling pipeline: a dict with a `durations`
list and a `scaling_data` list. -/
structure ScalingVersionData where
  durations : List ℚ
  scaling_data : List ScalingRun
deriving DecidableEq

/-- Embeds the dataclass `ScalingDataPoint`. -/
structure ScalingDataPoint where
  thread_count : ℤ
  duration : ℚ
  throughput : ℚ
  cpu_usage : ℚ
  memory_usage : ℚ

/-- Embeds the dataclass `ScalingBenchmarkResult`. -/
structure ScalingBenchmarkResult where
  status : String
  base_duration : ℚ
  scaling_factor : ℚ
  max_threads : ℤ
  efficiency : ℚ
  relative_performance : Option ℚ := none
  statistical_data : Option StatisticalResult := none
  scaling_data : List ScalingDataPoint := []

/-- The `ScalingBenchmarkResult(...)` construction of `_process_scaling_results`
(lines 406-423), built from the statistics of the baseline runs and the last
entry (`max_test`) of the last run's `scaling_tests`; `status` is
`'baseline' if version == self.baseline_version else 'comparison'`. -/
noncomputable def mkScalingResult (status : String) (stats : StatisticalResult)
    (latest_run : ScalingRun) (max_test : ScalingTest) : ScalingBenchmarkResult :=
  { status := status
    base_duration := stats.mean
    scaling_factor := max_test.speedup
    max_threads := max_test.threads
    efficiency := max_test.speedup / (max_test.threads : ℚ)
    statistical_data := some stats
    scaling_data := latest_run.scaling_tests.map (fun t =>
      { thread_count := t.threads
        duration := t.duration
        throughput := t.ops_per_sec.getD 0
        cpu_usage := t.cpu_usage.getD 0
        memory_usage := t.memory_usage.getD 0 }) }

/-- The loop body state-passing of `_process_scaling_results`: iterate over the
versions in insertion order, carrying the mutable `baseline_stats` (the stored
baseline `ScalingBenchmarkResult`, `none` until the baseline version has been
processed).  `scaling_data[-1]` is total on the nonempty list guaranteed by the
guard; `latest_run['scaling_tests'][-1]` raises `IndexError` on an empty list,
which aborts the whole call. -/
noncomputable def processScalingAux (baseline_version : String)
    (baseline_stats : Option ScalingBenchmarkResult) :
    List (String × ScalingVersionData) →
      Except PyErr (List (String × ScalingBenchmarkResult))
  | [] => .ok []
  | (version, data) :: rest =>
    if data.durations.isEmpty || data.scaling_data.isEmpty then
      processScalingAux baseline_version baseline_stats rest
    else
      let stats := buildStats data.durations
      let latest_run := data.scaling_data.getLastD ⟨[]⟩
      match latest_run.scaling_tests.getLast? with
      | none => .error .indexError
      | some max_test =>
        let scaling_result :=
          mkScalingResult
            (if version = baseline_version then "baseline" else "comparison")
            stats latest_run max_test
        if version = baseline_version then
          (processScalingAux baseline_version (some scaling_result) rest).map
            (fun out => (version, scaling_result) :: out)
        else
          match baseline_stats with
          | some bstats =>
            let relative_perf := scaling_result.scaling_factor / bstats.scaling_factor * 100
            let updated := { scaling_result with
              relative_performance := some relative_perf
              status := determine_performance_status relative_perf true }
            (processScalingAux baseline_version baseline_stats rest).map
              (fun out => (version, updated) :: out)
          | none =>
            (processScalingAux baseline_version baseline_stats rest).map
              (fun out => (version, scaling_result) :: out)

/-- Embeds `_process_scaling_results` (lines 380-436), with the runner's
`self.baseline_version` passed explicitly. -/
noncomputable def process_scaling_results (baseline_version : String)
    (version_results : List (String × ScalingVersionData)) :
    Except PyErr (List (String × ScalingBenchmarkResult)) :=
  processScalingAux baseline_version none version_results

/-- The loop of `_process_benchmark_results` specialised to
`test_type="regular"` (so `durations = data`), carrying the mutable
`baseline_stats`. -/
noncomputable def processRegularAux (baseline_version : String)
    (baseline_stats : Option StatisticalResult) :
    List (String × List ℚ) → List (String × RegularBenchmarkResult)
  | [] => []
  | (version, durations) :: rest =>
    if durations.isEmpty then
      processRegularAux baseline_version baseline_stats rest
    else
      let stats := buildStats durations
      if version = baseline_version then
        (version, { status := "baseline"
                    duration := stats.mean
                    statistical_data := some stats }) ::
          processRegularAux baseline_version (some stats) rest
      else
        match baseline_stats with
        | some bstats =>
          let relative_perf := stats.mean / bstats.mean * 100
          (version, { status := determine_performance_status relative_perf false
                      duration := stats.mean
                      relative_performance := some relative_perf
                      statistical_data := some stats }) ::
            processRegularAux baseline_version baseline_stats rest
        | none =>
          (version, { status := "no_baseline"
                      duration := stats.mean
                      relative_performance := some (100 : ℚ)
                      statistical_data := some stats }) ::
            processRegularAux baseline_version baseline_stats rest

/-- Embeds `_process_benchmark_results` (lines 438-498) with
`test_type="regular"`. -/
noncomputable def process_benchmark_results_regular (baseline_version : String)
    (version_results : List (String × List ℚ)) :
    List (String × RegularBenchmarkResult) :=
  processRegularAux baseline_version none version_results

/-- Number of parameters of `_process_scaling_result` after `self`
(lines 500-505: `stats`, `status`, `relative_performance`). -/
def scalingResultParamCount : Nat := 3

/-- Number of positional arguments passed to `_process_scaling_result` at each
of its two call sites in `_process_benchmark_results` (lines 475-477 and
494-496: `stats`, `scaling_data`, `status`/`'baseline'`,
`relative_performance`/`None`). -/
def scalingResultCallArgCount : Nat := 4

/-- Embeds `_process_benchmark_results` with `test_type="scaling"`
(so `durations = data['durations']`).  Once a version with a nonempty duration
list is reached, both branches call
`self._process_scaling_result(stats, scaling_data, status, relative_performance)`
with `scalingResultCallArgCount` positional arguments, while the method accepts
only `scalingResultParamCount`; Python raises `TypeError` before the method
body runs, aborting the whole call. -/
def process_benchmark_results_scaling (baseline_version : String) :
    List (String × ScalingVersionData) →
      Except PyErr (List (String × ScalingBenchmarkResult))
  | [] => .ok []
  | (_, data) :: rest =>
    if data.durations.isEmpty then
      process_benchmark_results_scaling baseline_version rest
    else
      .error .typeError

/-- Python's substring test `needle in haystack` on strings, as a scan over
all start positions. -/
def strContains (haystack needle : List Char) : Bool :=
  (List.range (haystack.length + 1)).any
    (fun i => decide ((haystack.drop i).take needle.length = needle))

/-- Errors raised by `PythonEnvironment._validate_interpreter` (both are
re-raised as `RuntimeError`). -/
inductive ValidationError where
  | freeThreadingRequired
  | versionMismatch
deriving DecidableEq, Repr

/-- Embeds the decision logic of `PythonEnvironment._validate_interpreter`
(`environment.py` lines 159-202), given the configured version string, the
version string reported by the interpreter and its parsed
`Py_GIL_DISABLED` flag: a configured version ending in `'t'` demands the flag;
then the configured version with a single trailing `'t'` stripped must occur as
a substring of the reported version string. -/
def validate_interpreter (config_version version_str : String)
    (gil_disabled : Bool) : Except ValidationError Unit :=
  if config_version.endsWith "t" && !gil_disabled then
    .error .freeThreadingRequired
  else
    let base_version :=
      if config_version.endsWith "t" then config_version.dropRight 1
      else config_version
    if strContains version_str.data base_version.data then .ok ()
    else .error .versionMismatch

/-- The value held by the mutable `baseline_stats` variable of
`_process_benchmark_results` (regular path) after the loop has processed
`input`, starting from `bs`: it is set to the statistics of a processed entry
exactly when that entry carries the baseline version with a nonempty series. -/
noncomputable def regularBaselineState (b : String)
    (bs : Option StatisticalResult) :
    List (String × List ℚ) → Option StatisticalResult
  | [] => bs
  | (v, d) :: rest =>
    regularBaselineState b
      (if d.isEmpty then bs
       else if v = b then some (buildStats d) else bs) rest

/-- The value held by the mutable `baseline_stats` variable of
`_process_scaling_results` after the loop has processed `input` without
raising, starting from `bs`. -/
noncomputable def scalingBaselineState (b : String)
    (bs : Option ScalingBenchmarkResult) :
    List (String × ScalingVersionData) → Option ScalingBenchmarkResult
  | [] => bs
  | (v, data) :: rest =>
    scalingBaselineState b
      (if data.durations.isEmpty || data.scaling_data.isEmpty then bs
       else
         match (data.scaling_data.getLastD ⟨[]⟩).scaling_tests.getLast? with
         | none => bs
         | some t =>
           if v = b then
             some (mkScalingResult "baseline" (buildStats data.durations)
               (data.scaling_data.getLastD ⟨[]⟩) t)
           else bs) rest

/-! ## Theorems -/

example : determine_performance_status 89 false = "improved" := by decide
example : determine_performance_status 90 false = "similar" := by decide
example : determine_performance_status 110 false = "similar" := by decide
example : determine_performance_status 111 false = "degraded" := by decide
example : determine_performance_status 111 true = "improved" := by decide
example : determine_performance_status 89 true = "degraded" := by decide

/-- C1: for a comparison computed against a present baseline,
`_determine_performance_status` returns exactly one of the three buckets
`improved` / `similar` / `degraded`, decided by the fixed ±10% threshold:
for regular tests `improved` iff the relative performance is below 90 and
`degraded` iff above 110 (exactly 90 and exactly 110 are `similar`); for
scaling tests the directions are reversed. -/
theorem c1_performance_status_buckets (rp : ℚ) :
    (determine_performance_status rp false = "improved" ∨
     determine_performance_status rp false = "similar" ∨
     determine_performance_status rp false = "degraded") ∧
    (determine_performance_status rp false = "improved" ↔ rp < 90) ∧
    (determine_performance_status rp false = "degraded" ↔ 110 < rp) ∧
    (determine_performance_status rp false = "similar" ↔ 90 ≤ rp ∧ rp ≤ 110) ∧
    (determine_performance_status rp true = "improved" ↔ 110 < rp) ∧
    (determine_performance_status rp true = "degraded" ↔ rp < 90) ∧
    (determine_performance_status rp true = "similar" ↔ 90 ≤ rp ∧ rp ≤ 110) ∧
    (determine_performance_status rp true = "improved" ∨
     determine_performance_status rp true = "similar" ∨
     determine_performance_status rp true = "degraded") := by
  rcases lt_or_le rp 90 with h90 | h90
  · have h110 : ¬ (110 : ℚ) < rp := by linarith
    have hr : determine_performance_status rp false = "improved" := by
      unfold determine_performance_status
      rw [if_neg (by decide), if_pos h90]
    have hs : determine_performance_status rp true = "degraded" := by
      unfold determine_performance_status
      rw [if_pos (by decide), if_neg h110, if_pos h90]
    rw [hr, hs]
    exact ⟨Or.inl rfl, iff_of_true rfl h90,
      iff_of_false (by decide) h110,
      iff_of_false (by decide) (fun h => absurd h.1 (by linarith)),
      iff_of_false (by decide) h110,
      iff_of_true rfl h90,
      iff_of_false (by decide) (fun h => absurd h.1 (by linarith)),
      Or.inr (Or.inr rfl)⟩
  · rcases le_or_lt rp 110 with h110 | h110
    · have h90n : ¬ rp < 90 := by linarith
      have h110n : ¬ (110 : ℚ) < rp := by linarith
      have hr : determine_performance_status rp false = "similar" := by
        unfold determine_performance_status
        rw [if_neg (by decide), if_neg h90n, if_neg h110n]
      have hs : determine_performance_status rp true = "similar" := by
        unfold determine_performance_status
        rw [if_pos (by decide), if_neg h110n, if_neg h90n]
      rw [hr, hs]
      exact ⟨Or.inr (Or.inl rfl),
        iff_of_false (by decide) h90n,
        iff_of_false (by decide) h110n,
        iff_of_true rfl ⟨h90, h110⟩,
        iff_of_false (by decide) h110n,
        iff_of_false (by decide) h90n,
        iff_of_true rfl ⟨h90, h110⟩,
        Or.inr (Or.inl rfl)⟩
    · have h90n : ¬ rp < 90 := by linarith
      have hr : determine_performance_status rp false = "degraded" := by
        unfold determine_performance_status
        rw [if_neg (by decide), if_neg h90n, if_pos h110]
      have hs : determine_performance_status rp true = "improved" := by
        unfold determine_performance_status
        rw [if_pos (by decide), if_pos h110]
      rw [hr, hs]
      exact ⟨Or.inr (Or.inr rfl),
        iff_of_false (by decide) h90n,
        iff_of_true rfl h110,
        iff_of_false (by decide) (fun h => absurd h.2 (by linarith)),
        iff_of_true rfl h110,
        iff_of_false (by decide) h90n,
        iff_of_false (by decide) (fun h => absurd h.2 (by linarith)),
        Or.inl rfl⟩

/-- Characterisation of the substring scan: `strContains haystack needle` holds
exactly when `needle` occurs contiguously inside `haystack`. -/
theorem strContains_iff_exists (haystack needle : List Char) :
    strContains haystack needle = true ↔
      ∃ pre post, haystack = pre ++ needle ++ post := by
  unfold strContains
  simp only [List.any_eq_true, List.mem_range, decide_eq_true_eq]
  constructor
  · rintro ⟨i, _, h⟩
    refine ⟨haystack.take i, (haystack.drop i).drop needle.length, ?_⟩
    have hsplit : haystack.drop i =
        needle ++ (haystack.drop i).drop needle.length := by
      conv_lhs => rw [← List.take_append_drop needle.length (haystack.drop i)]
      rw [h]
    exact ((List.take_append_drop i haystack).symm.trans
      (congrArg (haystack.take i ++ ·) hsplit)).trans
      (List.append_assoc _ _ _).symm
  · rintro ⟨pre, post, rfl⟩
    refine ⟨pre.length, ?_, ?_⟩
    · simp only [List.length_append]
      omega
    · rw [List.append_assoc, List.drop_left, List.take_left]

/-- C8: `_validate_interpreter` raises for a configured version ending in `'t'`
exactly when the interpreter does not report the GIL as disabled, and accepts
exactly when (additionally) the configured version with a trailing `'t'`
stripped occurs as a substring of the reported version string. -/
theorem c8_validate_interpreter_characterisation
    (config_version version_str : String) (gil_disabled : Bool) :
    (validate_interpreter config_version version_str gil_disabled =
        .error .freeThreadingRequired ↔
      (config_version.endsWith "t" = true ∧ gil_disabled = false)) ∧
    (validate_interpreter config_version version_str gil_disabled = .ok () ↔
      ((config_version.endsWith "t" = true → gil_disabled = true) ∧
        ∃ pre post, version_str.data =
          pre ++ (if config_version.endsWith "t" then config_version.dropRight 1
                  else config_version).data ++ post)) := by
  unfold validate_interpreter
  rcases ht : config_version.endsWith "t" with _ | _ <;>
    rcases hg : gil_disabled with _ | _ <;>
      simp [ht, hg, strContains_iff_exists] <;>
        split_ifs with h <;> simp_all [strContains_iff_exists]

/-- C3: whenever the input mapping contains the baseline version with a
nonempty duration list, `_process_benchmark_results` with
`test_type="scaling"` raises `TypeError`: both call sites pass four positional
arguments to `_process_scaling_result`, which accepts only three, so the
scaling branch can never return normally once it reaches that call. -/
theorem c3_scaling_type_raises_type_error (baseline_version : String)
    (input : List (String × ScalingVersionData)) (d : ScalingVersionData)
    (hmem : (baseline_version, d) ∈ input) (hd : d.durations ≠ []) :
    scalingResultCallArgCount ≠ scalingResultParamCount ∧
    process_benchmark_results_scaling baseline_version input =
      .error .typeError := by
  refine ⟨by decide, ?_⟩
  induction input with
  | nil => exact absurd hmem (by simp)
  | cons head rest ih =>
    cases hmem with
    | head =>
      simp only [process_benchmark_results_scaling]
      rw [if_neg (by simp [hd])]
    | tail _ hmem2 =>
      obtain ⟨v, data⟩ := head
      simp only [process_benchmark_results_scaling]
      split
      · exact ih hmem2
      · rfl

/-- Closed instance of `c3_scaling_type_raises_type_error` at a concrete
two-version input containing the baseline `"3.12.7"` with one duration. -/
theorem c3_scaling_type_raises_type_error_witness :
    scalingResultCallArgCount ≠ scalingResultParamCount ∧
    process_benchmark_results_scaling "3.12.7"
      [("3.13.0", ⟨[], []⟩), ("3.12.7", ⟨[1], []⟩)] = .error .typeError :=
  c3_scaling_type_raises_type_error "3.12.7"
    [("3.13.0", ⟨[], []⟩), ("3.12.7", ⟨[1], []⟩)] ⟨[1], []⟩
    (by decide) (by decide)

/-- A left fold of `min` over a list stays below the seed and every element,
and lands on the seed or an element. -/
theorem foldl_min_spec (l : List ℚ) (acc : ℚ) :
    (l.foldl min acc = acc ∨ l.foldl min acc ∈ l) ∧
    l.foldl min acc ≤ acc ∧ ∀ y ∈ l, l.foldl min acc ≤ y := by
  induction l generalizing acc with
  | nil => simp
  | cons x rest ih =>
    obtain ⟨hmem, hacc, hall⟩ := ih (min acc x)
    have hfold : (x :: rest).foldl min acc = rest.foldl min (min acc x) := rfl
    refine ⟨?_, ?_, ?_⟩
    · rcases hmem with h | h
      · rcases min_choice acc x with hc | hc
        · left
          rw [hfold, h, hc]
        · right
          rw [hfold, h, hc]
          exact .head _
      · right
        rw [hfold]
        exact .tail _ h
    · calc (x :: rest).foldl min acc = rest.foldl min (min acc x) := rfl
        _ ≤ min acc x := hacc
        _ ≤ acc := min_le_left _ _
    · intro y hy
      rcases List.mem_cons.mp hy with rfl | hy
      · calc (y :: rest).foldl min acc = rest.foldl min (min acc y) := rfl
          _ ≤ min acc y := hacc
          _ ≤ y := min_le_right _ _
      · rw [hfold]
        exact hall y hy

/-- A left fold of `max` over a list stays above the seed and every element,
and lands on the seed or an element. -/
theorem foldl_max_spec (l : List ℚ) (acc : ℚ) :
    (l.foldl max acc = acc ∨ l.foldl max acc ∈ l) ∧
    acc ≤ l.foldl max acc ∧ ∀ y ∈ l, y ≤ l.foldl max acc := by
  induction l generalizing acc with
  | nil => simp
  | cons x rest ih =>
    obtain ⟨hmem, hacc, hall⟩ := ih (max acc x)
    have hfold : (x :: rest).foldl max acc = rest.foldl max (max acc x) := rfl
    refine ⟨?_, ?_, ?_⟩
    · rcases hmem with h | h
      · rcases max_choice acc x with hc | hc
        · left
          rw [hfold, h, hc]
        · right
          rw [hfold, h, hc]
          exact .head _
      · right
        rw [hfold]
        exact .tail _ h
    · calc acc ≤ max acc x := le_max_left _ _
        _ ≤ rest.foldl max (max acc x) := hacc
        _ = (x :: rest).foldl max acc := rfl
    · intro y hy
      rcases List.mem_cons.mp hy with rfl | hy
      · calc y ≤ max acc y := le_max_right _ _
          _ ≤ rest.foldl max (max acc y) := hacc
          _ = (y :: rest).foldl max acc := rfl
      · rw [hfold]
        exact hall y hy

/-- Python `min` of a nonempty list is an element below every element. -/
theorem pyListMin_spec (xs : List ℚ) (h : xs ≠ []) :
    pyListMin xs ∈ xs ∧ ∀ y ∈ xs, pyListMin xs ≤ y := by
  match xs, h with
  | x :: rest, _ =>
    obtain ⟨hmem, hacc, hall⟩ := foldl_min_spec rest x
    have hdef : pyListMin (x :: rest) = rest.foldl min x := rfl
    refine ⟨?_, ?_⟩
    · rcases hmem with hm | hm
      · rw [hdef, hm]
        exact .head _
      · rw [hdef]
        exact .tail _ hm
    · intro y hy
      rcases List.mem_cons.mp hy with rfl | hy
      · rw [hdef]
        exact hacc
      · rw [hdef]
        exact hall y hy

/-- Python `max` of a nonempty list is an element above every element. -/
theorem pyListMax_spec (xs : List ℚ) (h : xs ≠ []) :
    pyListMax xs ∈ xs ∧ ∀ y ∈ xs, y ≤ pyListMax xs := by
  match xs, h with
  | x :: rest, _ =>
    obtain ⟨hmem, hacc, hall⟩ := foldl_max_spec rest x
    have hdef : pyListMax (x :: rest) = rest.foldl max x := rfl
    refine ⟨?_, ?_⟩
    · rcases hmem with hm | hm
      · rw [hdef, hm]
        exact .head _
      · rw [hdef]
        exact .tail _ hm
    · intro y hy
      rcases List.mem_cons.mp hy with rfl | hy
      · rw [hdef]
        exact hacc
      · rw [hdef]
        exact hall y hy

/-- C7: for a nonempty duration list, the `StatisticalResult` built by the
aggregation pipeline matches the reference definitions: its `mean` is the
arithmetic mean, its `median` is the middle of any ascending sorted
rearrangement of the data (average of the two middles for even length), its
`min` and `max` are the least and greatest elements, for at least two data
points its `stddev` is the sample standard deviation
`√(Σ (x - mean)² / (n - 1))`, and `iterations` is the duration list itself. -/
theorem c7_statistical_result_matches_reference (xs : List ℚ) (hne : xs ≠ []) :
    (buildStats xs).mean = xs.sum / xs.length ∧
    (∀ s : List ℚ, xs.Perm s → s.Sorted (· ≤ ·) →
      (buildStats xs).median =
        if xs.length % 2 = 1 then s.getD (xs.length / 2) 0
        else (s.getD (xs.length / 2 - 1) 0 + s.getD (xs.length / 2) 0) / 2) ∧
    ((buildStats xs).min ∈ xs ∧ ∀ y ∈ xs, (buildStats xs).min ≤ y) ∧
    ((buildStats xs).max ∈ xs ∧ ∀ y ∈ xs, y ≤ (buildStats xs).max) ∧
    (1 < xs.length →
      (buildStats xs).stddev =
        Real.sqrt (((xs.map (fun x => (x - xs.sum / xs.length) ^ 2)).sum /
          ((xs.length : ℚ) - 1) : ℚ))) ∧
    (buildStats xs).iterations = xs := by
  refine ⟨rfl, ?_, pyListMin_spec xs hne, pyListMax_spec xs hne, ?_, rfl⟩
  · intro s hperm hsorted
    haveI : IsAntisymm ℚ (fun a b : ℚ => a ≤ b) := ⟨fun _ _ h1 h2 => le_antisymm h1 h2⟩
    haveI : IsTotal ℚ (fun a b : ℚ => a ≤ b) := ⟨le_total⟩
    haveI : IsTrans ℚ (fun a b : ℚ => a ≤ b) := ⟨fun _ _ _ => le_trans⟩
    have hsort : xs.insertionSort (fun a b => a ≤ b) = s :=
      List.eq_of_perm_of_sorted ((List.perm_insertionSort _ xs).trans hperm)
        (List.sorted_insertionSort _ xs) hsorted
    show statistics_median xs = _
    unfold statistics_median
    rw [hsort]
  · intro hlen
    show (if xs.length > 1 then statistics_stdev xs else 0) = _
    rw [if_pos hlen]
    rfl

/-- Closed instance of `c7_statistical_result_matches_reference` at
`[3, 1]`: its sorted rearrangement is `[1, 3]`, so the median is `2`. -/
theorem c7_statistical_result_matches_reference_witness :
    (buildStats [3, 1]).mean = ([3, 1] : List ℚ).sum / 2 ∧
    (buildStats [3, 1]).median = ((1 : ℚ) + 3) / 2 ∧
    (buildStats [3, 1]).min ∈ ([3, 1] : List ℚ) ∧
    (buildStats [3, 1]).max ∈ ([3, 1] : List ℚ) ∧
    (buildStats [3, 1]).stddev =
      Real.sqrt (((([3, 1] : List ℚ).map
        (fun x => (x - ([3, 1] : List ℚ).sum / ([3, 1] : List ℚ).length) ^ 2)).sum /
          ((([3, 1] : List ℚ).length : ℚ) - 1) : ℚ)) ∧
    (buildStats [3, 1]).iterations = [3, 1] := by
  obtain ⟨hmean, hmed, hmin, hmax, hstd, hiter⟩ :=
    c7_statistical_result_matches_reference [3, 1] (by decide)
  refine ⟨hmean, ?_, hmin.1, hmax.1, hstd (by decide), hiter⟩
  have h := hmed [1, 3] (by decide) (by decide)
  simpa using h

/-- C10: a series with exactly one successful duration yields a reported
`stddev` of `0`: the guard `len(durations) > 1` routes single-element series
past the sample-standard-deviation computation (undefined for one
observation) to the literal `0`. -/
theorem c10_single_duration_stddev_zero (durations : List ℚ)
    (h : durations.length = 1) :
    (buildStats durations).stddev = 0 := by
  show (if durations.length > 1 then statistics_stdev durations else 0) = 0
  rw [if_neg (by omega)]

/-- Closed instance of `c10_single_duration_stddev_zero` at the one-element
series `[5]`. -/
theorem c10_single_duration_stddev_zero_witness :
    ([(5 : ℚ)].length = 1) ∧ (buildStats [5]).stddev = 0 :=
  ⟨rfl, c10_single_duration_stddev_zero [5] rfl⟩

/-! ### Association-list lookup helpers -/

theorem lookup_cons_self {β : Type _} (a : String) (b : β) (l : List (String × β)) :
    List.lookup a ((a, b) :: l) = some b := by
  simp [List.lookup]

theorem lookup_cons_ne {β : Type _} (a c : String) (b : β) (l : List (String × β))
    (h : c ≠ a) : List.lookup a ((c, b) :: l) = List.lookup a l := by
  have hb : (a == c) = false := beq_eq_false_iff_ne.mpr (fun hh => h hh.symm)
  simp [List.lookup, hb]

theorem lookup_append_of_none {β : Type _} (a : String) (l1 l2 : List (String × β))
    (h : l1.lookup a = none) : (l1 ++ l2).lookup a = l2.lookup a := by
  induction l1 with
  | nil => rfl
  | cons x xs ih =>
    obtain ⟨k, v⟩ := x
    rcases hk : a == k with _ | _
    · simp only [List.cons_append, List.lookup, hk] at h ⊢
      exact ih h
    · simp only [List.lookup, hk] at h
      exact absurd h (by simp)

/-! ### Step equations for the regular-results loop -/

theorem processRegularAux_cons_skip (b : String) (bs : Option StatisticalResult)
    (v : String) (d : List ℚ) (rest : List (String × List ℚ))
    (hd : d.isEmpty = true) :
    processRegularAux b bs ((v, d) :: rest) = processRegularAux b bs rest := by
  simp only [processRegularAux]
  rw [if_pos hd]

theorem processRegularAux_cons_baseline (b : String) (bs : Option StatisticalResult)
    (d : List ℚ) (rest : List (String × List ℚ)) (hd : d.isEmpty = false) :
    processRegularAux b bs ((b, d) :: rest) =
      (b, { status := "baseline", duration := (buildStats d).mean,
            statistical_data := some (buildStats d) }) ::
        processRegularAux b (some (buildStats d)) rest := by
  simp only [processRegularAux]
  rw [if_neg (by simp [hd])]
  simp

theorem processRegularAux_cons_compare (b v : String) (d : List ℚ)
    (rest : List (String × List ℚ)) (bstats : StatisticalResult)
    (hv : v ≠ b) (hd : d.isEmpty = false) :
    processRegularAux b (some bstats) ((v, d) :: rest) =
      (v, { status :=
              determine_performance_status ((buildStats d).mean / bstats.mean * 100) false
            duration := (buildStats d).mean
            relative_performance := some ((buildStats d).mean / bstats.mean * 100)
            statistical_data := some (buildStats d) }) ::
        processRegularAux b (some bstats) rest := by
  simp only [processRegularAux]
  rw [if_neg (by simp [hd]), if_neg hv]

theorem processRegularAux_cons_no_baseline (b v : String) (d : List ℚ)
    (rest : List (String × List ℚ)) (hv : v ≠ b) (hd : d.isEmpty = false) :
    processRegularAux b none ((v, d) :: rest) =
      (v, { status := "no_baseline", duration := (buildStats d).mean,
            relative_performance := some (100 : ℚ),
            statistical_data := some (buildStats d) }) ::
        processRegularAux b none rest := by
  simp only [processRegularAux]
  rw [if_neg (by simp [hd]), if_neg hv]

/-! ### Step equations for the scaling-results loop -/

theorem processScalingAux_cons_skip (b : String)
    (bs : Option ScalingBenchmarkResult) (v : String) (data : ScalingVersionData)
    (rest : List (String × ScalingVersionData))
    (hd : (data.durations.isEmpty || data.scaling_data.isEmpty) = true) :
    processScalingAux b bs ((v, data) :: rest) = processScalingAux b bs rest := by
  simp only [processScalingAux]
  rw [if_pos hd]

theorem processScalingAux_cons_error (b : String)
    (bs : Option ScalingBenchmarkResult) (v : String) (data : ScalingVersionData)
    (rest : List (String × ScalingVersionData))
    (hd : (data.durations.isEmpty || data.scaling_data.isEmpty) = false)
    (ht : (data.scaling_data.getLastD ⟨[]⟩).scaling_tests.getLast? = none) :
    processScalingAux b bs ((v, data) :: rest) = .error .indexError := by
  simp only [processScalingAux]
  rw [if_neg (by simp [hd])]
  simp only [ht]

theorem processScalingAux_cons_baseline (b : String)
    (bs : Option ScalingBenchmarkResult) (data : ScalingVersionData)
    (rest : List (String × ScalingVersionData)) (t : ScalingTest)
    (hd : (data.durations.isEmpty || data.scaling_data.isEmpty) = false)
    (ht : (data.scaling_data.getLastD ⟨[]⟩).scaling_tests.getLast? = some t) :
    processScalingAux b bs ((b, data) :: rest) =
      (processScalingAux b
          (some (mkScalingResult "baseline" (buildStats data.durations)
            (data.scaling_data.getLastD ⟨[]⟩) t)) rest).map
        (fun out => (b, mkScalingResult "baseline" (buildStats data.durations)
          (data.scaling_data.getLastD ⟨[]⟩) t) :: out) := by
  simp only [processScalingAux]
  rw [if_neg (by simp [hd])]
  simp only [ht]
  simp

theorem processScalingAux_cons_compare (b v : String)
    (bstats : ScalingBenchmarkResult) (data : ScalingVersionData)
    (rest : List (String × ScalingVersionData)) (t : ScalingTest)
    (hv : v ≠ b)
    (hd : (data.durations.isEmpty || data.scaling_data.isEmpty) = false)
    (ht : (data.scaling_data.getLastD ⟨[]⟩).scaling_tests.getLast? = some t) :
    processScalingAux b (some bstats) ((v, data) :: rest) =
      (processScalingAux b (some bstats) rest).map
        (fun out =>
          (v, { mkScalingResult "comparison" (buildStats data.durations)
                  (data.scaling_data.getLastD ⟨[]⟩) t with
                relative_performance := some (t.speedup / bstats.scaling_factor * 100)
                status := determine_performance_status
                  (t.speedup / bstats.scaling_factor * 100) true }) :: out) := by
  simp only [processScalingAux]
  rw [if_neg (by simp [hd])]
  simp only [ht, if_neg hv]
  rfl

theorem processScalingAux_cons_none (b v : String) (data : ScalingVersionData)
    (rest : List (String × ScalingVersionData)) (t : ScalingTest)
    (hv : v ≠ b)
    (hd : (data.durations.isEmpty || data.scaling_data.isEmpty) = false)
    (ht : (data.scaling_data.getLastD ⟨[]⟩).scaling_tests.getLast? = some t) :
    processScalingAux b none ((v, data) :: rest) =
      (processScalingAux b none rest).map
        (fun out => (v, mkScalingResult "comparison" (buildStats data.durations)
          (data.scaling_data.getLastD ⟨[]⟩) t) :: out) := by
  simp only [processScalingAux]
  rw [if_neg (by simp [hd])]
  simp only [ht, if_neg hv]

/-- Destructing `Except.map f e = .ok b`. -/
theorem except_map_eq_ok {ε α β : Type _} (f : α → β) (e : Except ε α) (b : β)
    (h : e.map f = .ok b) : ∃ a, e = .ok a ∧ f a = b := by
  cases e with
  | error err => exact absurd h (by simp [Except.map])
  | ok a => exact ⟨a, rfl, by simpa [Except.map] using h⟩

/-- Dropping the empty series from the input does not change the regular
pipeline's output (`continue` skips them before any state is touched). -/
theorem processRegularAux_filter (b : String) (bs : Option StatisticalResult)
    (input : List (String × List ℚ)) :
    processRegularAux b bs (input.filter (fun p => !p.2.isEmpty)) =
      processRegularAux b bs input := by
  induction input generalizing bs with
  | nil => rfl
  | cons head rest ih =>
    obtain ⟨v, d⟩ := head
    rcases hd : d.isEmpty with _ | _
    · rw [List.filter_cons_of_pos (by simp [hd])]
      by_cases hv : v = b
      · subst hv
        rw [processRegularAux_cons_baseline _ _ _ _ hd,
          processRegularAux_cons_baseline _ _ _ _ hd, ih]
      · cases bs with
        | some bstats =>
          rw [processRegularAux_cons_compare _ _ _ _ _ hv hd,
            processRegularAux_cons_compare _ _ _ _ _ hv hd, ih]
        | none =>
          rw [processRegularAux_cons_no_baseline _ _ _ _ hv hd,
            processRegularAux_cons_no_baseline _ _ _ _ hv hd, ih]
    · rw [List.filter_cons_of_neg (by simp [hd]),
        processRegularAux_cons_skip _ _ _ _ _ hd, ih]

/-- Dropping the versions with an empty duration list or empty scaling data
from the input does not change the scaling pipeline's output. -/
theorem processScalingAux_filter (b : String)
    (bs : Option ScalingBenchmarkResult)
    (input : List (String × ScalingVersionData)) :
    processScalingAux b bs (input.filter
        (fun p => !(p.2.durations.isEmpty || p.2.scaling_data.isEmpty))) =
      processScalingAux b bs input := by
  induction input generalizing bs with
  | nil => rfl
  | cons head rest ih =>
    obtain ⟨v, data⟩ := head
    rcases hd : (data.durations.isEmpty || data.scaling_data.isEmpty) with _ | _
    · rw [List.filter_cons_of_pos (by simp [hd])]
      rcases ht : (data.scaling_data.getLastD ⟨[]⟩).scaling_tests.getLast? with _ | t
      · rw [processScalingAux_cons_error _ _ _ _ _ hd ht,
          processScalingAux_cons_error _ _ _ _ _ hd ht]
      · by_cases hv : v = b
        · subst hv
          rw [processScalingAux_cons_baseline _ _ _ _ _ hd ht,
            processScalingAux_cons_baseline _ _ _ _ _ hd ht, ih]
        · cases bs with
          | some bstats =>
            rw [processScalingAux_cons_compare _ _ _ _ _ _ hv hd ht,
              processScalingAux_cons_compare _ _ _ _ _ _ hv hd ht, ih]
          | none =>
            rw [processScalingAux_cons_none _ _ _ _ _ hv hd ht,
              processScalingAux_cons_none _ _ _ _ _ hv hd ht, ih]
    · rw [List.filter_cons_of_neg (by simp [hd]),
        processScalingAux_cons_skip _ _ _ _ _ hd, ih]

/-- A version that only ever appears with an empty duration list gets no entry
in the regular pipeline's output. -/
theorem processRegularAux_lookup_none (b v : String)
    (bs : Option StatisticalResult) (input : List (String × List ℚ))
    (h : ∀ d, (v, d) ∈ input → d = []) :
    (processRegularAux b bs input).lookup v = none := by
  induction input generalizing bs with
  | nil => rfl
  | cons head rest ih =>
    obtain ⟨w, d⟩ := head
    have hrest : ∀ d, (v, d) ∈ rest → d = [] := fun d hd => h d (.tail _ hd)
    rcases hd : d.isEmpty with _ | _
    · have hwv : w ≠ v := by
        rintro rfl
        have hnil := h d (.head _)
        subst hnil
        simp at hd
      by_cases hb : w = b
      · subst hb
        rw [processRegularAux_cons_baseline _ _ _ _ hd, lookup_cons_ne _ _ _ _ hwv]
        exact ih _ hrest
      · cases bs with
        | some bstats =>
          rw [processRegularAux_cons_compare _ _ _ _ _ hb hd,
            lookup_cons_ne _ _ _ _ hwv]
          exact ih _ hrest
        | none =>
          rw [processRegularAux_cons_no_baseline _ _ _ _ hb hd,
            lookup_cons_ne _ _ _ _ hwv]
          exact ih _ hrest
    · rw [processRegularAux_cons_skip _ _ _ _ _ hd]
      exact ih _ hrest

/-- A version that only ever appears with an empty duration list or empty
scaling data gets no entry in the scaling pipeline's output. -/
theorem processScalingAux_lookup_none (b v : String)
    (bs : Option ScalingBenchmarkResult)
    (input : List (String × ScalingVersionData))
    (h : ∀ data, (v, data) ∈ input →
      data.durations = [] ∨ data.scaling_data = [])
    (out : List (String × ScalingBenchmarkResult))
    (hok : processScalingAux b bs input = .ok out) :
    out.lookup v = none := by
  induction input generalizing bs out with
  | nil =>
    simp only [processScalingAux] at hok
    injection hok with hh
    subst hh
    rfl
  | cons head rest ih =>
    obtain ⟨w, data⟩ := head
    have hrest : ∀ data, (v, data) ∈ rest →
        data.durations = [] ∨ data.scaling_data = [] :=
      fun data hd => h data (.tail _ hd)
    rcases hd : (data.durations.isEmpty || data.scaling_data.isEmpty) with _ | _
    · have hwv : w ≠ v := by
        rintro rfl
        rcases h data (.head _) with h1 | h1 <;> simp [h1] at hd
      rcases ht : (data.scaling_data.getLastD ⟨[]⟩).scaling_tests.getLast? with _ | t
      · rw [processScalingAux_cons_error _ _ _ _ _ hd ht] at hok
        exact Except.noConfusion hok
      · by_cases hb : w = b
        · subst hb
          rw [processScalingAux_cons_baseline _ _ _ _ _ hd ht] at hok
          obtain ⟨out1, hok1, rfl⟩ := except_map_eq_ok _ _ _ hok
          rw [lookup_cons_ne _ _ _ _ hwv]
          exact ih _ hrest _ hok1
        · cases bs with
          | some bstats =>
            rw [processScalingAux_cons_compare _ _ _ _ _ _ hb hd ht] at hok
            obtain ⟨out1, hok1, rfl⟩ := except_map_eq_ok _ _ _ hok
            rw [lookup_cons_ne _ _ _ _ hwv]
            exact ih _ hrest _ hok1
          | none =>
            rw [processScalingAux_cons_none _ _ _ _ _ hb hd ht] at hok
            obtain ⟨out1, hok1, rfl⟩ := except_map_eq_ok _ _ _ hok
            rw [lookup_cons_ne _ _ _ _ hwv]
            exact ih _ hrest _ hok1
    · rw [processScalingAux_cons_skip _ _ _ _ _ hd] at hok
      exact ih _ hrest _ hok

/-- C5: empty series are skipped: filtering out the versions with an empty
duration list (for scaling, also those with empty scaling data) leaves the
output of `_process_benchmark_results` / `_process_scaling_results` unchanged,
a version appearing only with an empty series gets no output entry, and an
entirely empty input mapping yields an empty output mapping. -/
theorem c5_empty_series_skipped (b v : String)
    (inputR : List (String × List ℚ))
    (inputS : List (String × ScalingVersionData)) :
    (process_benchmark_results_regular b
        (inputR.filter (fun p => !p.2.isEmpty)) =
      process_benchmark_results_regular b inputR) ∧
    (process_scaling_results b (inputS.filter
        (fun p => !(p.2.durations.isEmpty || p.2.scaling_data.isEmpty))) =
      process_scaling_results b inputS) ∧
    ((∀ d, (v, d) ∈ inputR → d = []) →
      (process_benchmark_results_regular b inputR).lookup v = none) ∧
    ((∀ data, (v, data) ∈ inputS →
        data.durations = [] ∨ data.scaling_data = []) →
      ∀ out, process_scaling_results b inputS = .ok out → out.lookup v = none) ∧
    process_benchmark_results_regular b [] = [] ∧
    process_scaling_results b [] = .ok [] :=
  ⟨processRegularAux_filter b none inputR,
   processScalingAux_filter b none inputS,
   fun h => processRegularAux_lookup_none b v none inputR h,
   fun h out hok => processScalingAux_lookup_none b v none inputS h out hok,
   rfl, rfl⟩

/-- Closed instance of `c5_empty_series_skipped`: with baseline `"b"`, the
version `"e"` carrying only an empty series gets no output entry in either
pipeline. -/
theorem c5_empty_series_skipped_witness :
    (process_benchmark_results_regular "b"
        [("b", [2]), ("e", ([] : List ℚ)), ("v", [4])]).lookup "e" = none ∧
    ([] : List (String × ScalingBenchmarkResult)).lookup "e" = none :=
  ⟨(c5_empty_series_skipped "b" "e"
      [("b", [2]), ("e", ([] : List ℚ)), ("v", [4])]
      [("e", ⟨[], [⟨[]⟩]⟩)]).2.2.1
      (by intro d hd; simpa using hd),
   (c5_empty_series_skipped "b" "e"
      [("b", [2]), ("e", ([] : List ℚ)), ("v", [4])]
      [("e", ⟨[], [⟨[]⟩]⟩)]).2.2.2.1
      (by
        intro data hd
        have h2 := List.mem_singleton.mp hd
        injection h2 with h3 h4
        subst h4
        exact Or.inl rfl)
      [] rfl⟩

/-- Every entry of the scaling pipeline's output comes from an input version
with nonempty series, and reports the metrics of the last entry of the last
run's `scaling_tests`. -/
theorem processScalingAux_mem_spec (b : String)
    (input : List (String × ScalingVersionData)) :
    ∀ (bs : Option ScalingBenchmarkResult)
      (out : List (String × ScalingBenchmarkResult))
      (v : String) (r : ScalingBenchmarkResult),
      processScalingAux b bs input = .ok out → (v, r) ∈ out →
      ∃ data : ScalingVersionData, (v, data) ∈ input ∧
        data.durations ≠ [] ∧ data.scaling_data ≠ [] ∧
        ∃ t : ScalingTest,
          (data.scaling_data.getLastD ⟨[]⟩).scaling_tests.getLast? = some t ∧
          r.max_threads = t.threads ∧
          r.scaling_factor = t.speedup ∧
          r.efficiency = t.speedup / (t.threads : ℚ) := by
  induction input with
  | nil =>
    intro bs out v r hok hmem
    simp only [processScalingAux] at hok
    injection hok with hh
    subst hh
    exact absurd hmem (by simp)
  | cons head rest ih =>
    intro bs out v r hok hmem
    obtain ⟨w, data⟩ := head
    rcases hd : (data.durations.isEmpty || data.scaling_data.isEmpty) with _ | _
    · have hd1 : data.durations ≠ [] := by
        intro hh
        rw [hh] at hd
        simp at hd
      have hd2 : data.scaling_data ≠ [] := by
        intro hh
        rw [hh] at hd
        simp at hd
      rcases ht : (data.scaling_data.getLastD ⟨[]⟩).scaling_tests.getLast? with _ | t
      · rw [processScalingAux_cons_error _ _ _ _ _ hd ht] at hok
        exact Except.noConfusion hok
      · by_cases hb : w = b
        · subst hb
          rw [processScalingAux_cons_baseline _ _ _ _ _ hd ht] at hok
          obtain ⟨out1, hok1, rfl⟩ := except_map_eq_ok _ _ _ hok
          rcases List.mem_cons.mp hmem with heq | hmem1
          · injection heq with h1 h2
            subst h1
            subst h2
            exact ⟨data, .head _, hd1, hd2, t, ht, rfl, rfl, rfl⟩
          · obtain ⟨data2, hmem2, hrest⟩ := ih _ _ _ _ hok1 hmem1
            exact ⟨data2, .tail _ hmem2, hrest⟩
        · cases bs with
          | some bstats =>
            rw [processScalingAux_cons_compare _ _ _ _ _ _ hb hd ht] at hok
            obtain ⟨out1, hok1, rfl⟩ := except_map_eq_ok _ _ _ hok
            rcases List.mem_cons.mp hmem with heq | hmem1
            · injection heq with h1 h2
              subst h1
              subst h2
              exact ⟨data, .head _, hd1, hd2, t, ht, rfl, rfl, rfl⟩
            · obtain ⟨data2, hmem2, hrest⟩ := ih _ _ _ _ hok1 hmem1
              exact ⟨data2, .tail _ hmem2, hrest⟩
          | none =>
            rw [processScalingAux_cons_none _ _ _ _ _ hb hd ht] at hok
            obtain ⟨out1, hok1, rfl⟩ := except_map_eq_ok _ _ _ hok
            rcases List.mem_cons.mp hmem with heq | hmem1
            · injection heq with h1 h2
              subst h1
              subst h2
              exact ⟨data, .head _, hd1, hd2, t, ht, rfl, rfl, rfl⟩
            · obtain ⟨data2, hmem2, hrest⟩ := ih _ _ _ _ hok1 hmem1
              exact ⟨data2, .tail _ hmem2, hrest⟩
    · rw [processScalingAux_cons_skip _ _ _ _ _ hd] at hok
      obtain ⟨data2, hmem2, hrest⟩ := ih _ _ _ _ hok hmem
      exact ⟨data2, .tail _ hmem2, hrest⟩

/-- C6: every result produced by `_process_scaling_results` reports the
parallel metrics of the highest-worker data point of the last run:
`max_threads` is the thread count of the last `scaling_tests` entry,
`scaling_factor` is that entry's speedup, and `efficiency` is that speedup
divided by that thread count. -/
theorem c6_scaling_metrics_from_last_data_point (b : String)
    (input : List (String × ScalingVersionData))
    (out : List (String × ScalingBenchmarkResult))
    (v : String) (r : ScalingBenchmarkResult)
    (hok : process_scaling_results b input = .ok out)
    (hmem : (v, r) ∈ out) :
    ∃ data : ScalingVersionData, (v, data) ∈ input ∧
      data.durations ≠ [] ∧ data.scaling_data ≠ [] ∧
      ∃ t : ScalingTest,
        (data.scaling_data.getLastD ⟨[]⟩).scaling_tests.getLast? = some t ∧
        r.max_threads = t.threads ∧
        r.scaling_factor = t.speedup ∧
        r.efficiency = t.speedup / (t.threads : ℚ) :=
  processScalingAux_mem_spec b input none out v r hok hmem

/-- Closed instance of `c6_scaling_metrics_from_last_data_point` at a
one-version input whose last scaling test ran 4 threads with speedup 2. -/
theorem c6_scaling_metrics_from_last_data_point_witness :
    ∃ data : ScalingVersionData,
      ("b", data) ∈
        [("b", (⟨[1], [⟨[⟨4, 5, 2, none, none, none⟩]⟩]⟩ : ScalingVersionData))] ∧
      data.durations ≠ [] ∧ data.scaling_data ≠ [] ∧
      ∃ t : ScalingTest,
        (data.scaling_data.getLastD ⟨[]⟩).scaling_tests.getLast? = some t ∧
        (mkScalingResult "baseline" (buildStats [1])
            ⟨[⟨4, 5, 2, none, none, none⟩]⟩ ⟨4, 5, 2, none, none, none⟩).max_threads
          = t.threads ∧
        (mkScalingResult "baseline" (buildStats [1])
            ⟨[⟨4, 5, 2, none, none, none⟩]⟩ ⟨4, 5, 2, none, none, none⟩).scaling_factor
          = t.speedup ∧
        (mkScalingResult "baseline" (buildStats [1])
            ⟨[⟨4, 5, 2, none, none, none⟩]⟩ ⟨4, 5, 2, none, none, none⟩).efficiency
          = t.speedup / (t.threads : ℚ) :=
  c6_scaling_metrics_from_last_data_point "b"
    [("b", ⟨[1], [⟨[⟨4, 5, 2, none, none, none⟩]⟩]⟩)]
    [("b", mkScalingResult "baseline" (buildStats [1])
      ⟨[⟨4, 5, 2, none, none, none⟩]⟩ ⟨4, 5, 2, none, none, none⟩)]
    "b"
    (mkScalingResult "baseline" (buildStats [1])
      ⟨[⟨4, 5, 2, none, none, none⟩]⟩ ⟨4, 5, 2, none, none, none⟩)
    rfl (List.mem_singleton.mpr rfl)

/-- Processing a concatenated input splits into processing the prefix and then
the suffix from the baseline state the prefix leaves behind. -/
theorem processRegularAux_append (b : String) (input1 input2 : List (String × List ℚ)) :
    ∀ bs, processRegularAux b bs (input1 ++ input2) =
      processRegularAux b bs input1 ++
        processRegularAux b (regularBaselineState b bs input1) input2 := by
  induction input1 with
  | nil => intro bs; rfl
  | cons head rest ih =>
    intro bs
    obtain ⟨v, d⟩ := head
    rcases hd : d.isEmpty with _ | _
    · by_cases hv : v = b
      · rw [hv]
        have hstate : regularBaselineState b bs ((b, d) :: rest) =
            regularBaselineState b (some (buildStats d)) rest := by
          simp only [regularBaselineState]
          simp [hd]
        rw [List.cons_append, processRegularAux_cons_baseline _ _ _ _ hd,
          processRegularAux_cons_baseline _ _ _ _ hd, ih, hstate, List.cons_append]
      · have hstate : regularBaselineState b bs ((v, d) :: rest) =
            regularBaselineState b bs rest := by
          simp only [regularBaselineState]
          simp [hd, hv]
        cases bs with
        | some bstats =>
          rw [List.cons_append, processRegularAux_cons_compare _ _ _ _ _ hv hd,
            processRegularAux_cons_compare _ _ _ _ _ hv hd, ih, hstate, List.cons_append]
        | none =>
          rw [List.cons_append, processRegularAux_cons_no_baseline _ _ _ _ hv hd,
            processRegularAux_cons_no_baseline _ _ _ _ hv hd, ih, hstate, List.cons_append]
    · have hstate : regularBaselineState b bs ((v, d) :: rest) =
          regularBaselineState b bs rest := by
        simp only [regularBaselineState]
        simp [hd]
      rw [List.cons_append, processRegularAux_cons_skip _ _ _ _ _ hd,
        processRegularAux_cons_skip _ _ _ _ _ hd, ih, hstate]

/-- The baseline state of the regular loop stays `none` exactly when it starts
as `none` and no processed entry carries the baseline version with a nonempty
series. -/
theorem regularBaselineState_none_iff (b : String) (input : List (String × List ℚ)) :
    ∀ bs, regularBaselineState b bs input = none ↔
      bs = none ∧ ∀ d, (b, d) ∈ input → d = [] := by
  induction input with
  | nil => intro bs; simp [regularBaselineState]
  | cons head rest ih =>
    intro bs
    obtain ⟨v, d⟩ := head
    rcases hd : d.isEmpty with _ | _
    · by_cases hv : v = b
      · rw [hv]
        rw [show regularBaselineState b bs ((b, d) :: rest) =
            regularBaselineState b (some (buildStats d)) rest from by
          simp only [regularBaselineState]
          simp [hd]]
        rw [ih]
        constructor
        · rintro ⟨h1, -⟩
          exact absurd h1 (by simp)
        · rintro ⟨-, h2⟩
          have := h2 d (.head _)
          subst this
          simp at hd
      · rw [show regularBaselineState b bs ((v, d) :: rest) =
            regularBaselineState b bs rest from by
          simp only [regularBaselineState]
          simp [hd, hv]]
        rw [ih]
        constructor
        · rintro ⟨h1, h2⟩
          refine ⟨h1, fun dd hdd => ?_⟩
          rcases List.mem_cons.mp hdd with heq | hm
          · injection heq with h3 h4
            exact absurd h3.symm hv
          · exact h2 dd hm
        · rintro ⟨h1, h2⟩
          exact ⟨h1, fun dd hdd => h2 dd (.tail _ hdd)⟩
    · have hdnil : d = [] := List.isEmpty_iff.mp hd
      rw [show regularBaselineState b bs ((v, d) :: rest) =
          regularBaselineState b bs rest from by
        simp only [regularBaselineState]
        simp [hd]]
      rw [ih]
      constructor
      · rintro ⟨h1, h2⟩
        refine ⟨h1, fun dd hdd => ?_⟩
        rcases List.mem_cons.mp hdd with heq | hm
        · injection heq with h3 h4
          rw [h4, hdnil]
        · exact h2 dd hm
      · rintro ⟨h1, h2⟩
        exact ⟨h1, fun dd hdd => h2 dd (.tail _ hdd)⟩

/-- Scaling analogue of `processRegularAux_append`, with the raising loop
split through `Except.bind`. -/
theorem processScalingAux_append (b : String)
    (input1 input2 : List (String × ScalingVersionData)) :
    ∀ bs, processScalingAux b bs (input1 ++ input2) =
      (processScalingAux b bs input1).bind (fun out1 =>
        (processScalingAux b (scalingBaselineState b bs input1) input2).map
          (fun out2 => out1 ++ out2)) := by
  induction input1 with
  | nil =>
    intro bs
    rw [List.nil_append]
    cases h : processScalingAux b bs input2 <;>
      simp [h, Except.bind, Except.map, scalingBaselineState, processScalingAux]
  | cons head rest ih =>
    intro bs
    obtain ⟨v, data⟩ := head
    rcases hd : (data.durations.isEmpty || data.scaling_data.isEmpty) with _ | _
    · rcases ht : (data.scaling_data.getLastD ⟨[]⟩).scaling_tests.getLast? with _ | t
      · rw [List.cons_append, processScalingAux_cons_error _ _ _ _ _ hd ht,
          processScalingAux_cons_error _ _ _ _ _ hd ht]
        rfl
      · by_cases hv : v = b
        · rw [hv]
          have hstate : scalingBaselineState b bs ((b, data) :: rest) =
              scalingBaselineState b
                (some (mkScalingResult "baseline" (buildStats data.durations)
                  (data.scaling_data.getLastD ⟨[]⟩) t)) rest := by
            simp only [scalingBaselineState, hd, ht]
            simp
          rw [List.cons_append, processScalingAux_cons_baseline _ _ _ _ _ hd ht,
            processScalingAux_cons_baseline _ _ _ _ _ hd ht, ih, hstate]
          cases h1 : processScalingAux b
              (some (mkScalingResult "baseline" (buildStats data.durations)
                (data.scaling_data.getLastD ⟨[]⟩) t)) rest <;>
            cases h2 : processScalingAux b
                (scalingBaselineState b
                  (some (mkScalingResult "baseline" (buildStats data.durations)
                    (data.scaling_data.getLastD ⟨[]⟩) t)) rest) input2 <;>
              simp [h1, h2, Except.bind, Except.map]
        · have hstate : scalingBaselineState b bs ((v, data) :: rest) =
              scalingBaselineState b bs rest := by
            simp only [scalingBaselineState, hd, ht]
            simp [hv]
          cases bs with
          | some bstats =>
            rw [List.cons_append, processScalingAux_cons_compare _ _ _ _ _ _ hv hd ht,
              processScalingAux_cons_compare _ _ _ _ _ _ hv hd ht, ih, hstate]
            cases h1 : processScalingAux b (some bstats) rest <;>
              cases h2 : processScalingAux b
                  (scalingBaselineState b (some bstats) rest) input2 <;>
                simp [h1, h2, Except.bind, Except.map]
          | none =>
            rw [List.cons_append, processScalingAux_cons_none _ _ _ _ _ hv hd ht,
              processScalingAux_cons_none _ _ _ _ _ hv hd ht, ih, hstate]
            cases h1 : processScalingAux b none rest <;>
              cases h2 : processScalingAux b
                  (scalingBaselineState b none rest) input2 <;>
                simp [h1, h2, Except.bind, Except.map]
    · have hstate : scalingBaselineState b bs ((v, data) :: rest) =
          scalingBaselineState b bs rest := by
        simp only [scalingBaselineState, hd]
        simp
      rw [List.cons_append, processScalingAux_cons_skip _ _ _ _ _ hd,
        processScalingAux_cons_skip _ _ _ _ _ hd, ih, hstate]

/-- Once the scaling loop has stored a baseline result, it never reverts to
`none`. -/
theorem scalingBaselineState_some_mono (b : String)
    (input : List (String × ScalingVersionData)) :
    ∀ x, scalingBaselineState b (some x) input ≠ none := by
  induction input with
  | nil => intro x h; exact Option.noConfusion h
  | cons head rest ih =>
    intro x
    obtain ⟨v, data⟩ := head
    rcases hd : (data.durations.isEmpty || data.scaling_data.isEmpty) with _ | _
    · rcases ht : (data.scaling_data.getLastD ⟨[]⟩).scaling_tests.getLast? with _ | t
      · have hstep : scalingBaselineState b (some x) ((v, data) :: rest) =
            scalingBaselineState b (some x) rest := by
          simp only [scalingBaselineState, hd, ht]
          simp
        rw [hstep]
        exact ih x
      · by_cases hv : v = b
        · have hstep : scalingBaselineState b (some x) ((v, data) :: rest) =
              scalingBaselineState b
                (some (mkScalingResult "baseline" (buildStats data.durations)
                  (data.scaling_data.getLastD ⟨[]⟩) t)) rest := by
            simp only [scalingBaselineState, hd, ht]
            simp [hv]
          rw [hstep]
          exact ih _
        · have hstep : scalingBaselineState b (some x) ((v, data) :: rest) =
              scalingBaselineState b (some x) rest := by
            simp only [scalingBaselineState, hd, ht]
            simp [hv]
          rw [hstep]
          exact ih x
    · have hstep : scalingBaselineState b (some x) ((v, data) :: rest) =
          scalingBaselineState b (some x) rest := by
        simp only [scalingBaselineState, hd]
        simp
      rw [hstep]
      exact ih x

/-- If the scaling loop completes without raising and its baseline state is
still `none`, no processed entry carried the baseline version with nonempty
series. -/
theorem scalingBaselineState_none_spec (b : String)
    (input : List (String × ScalingVersionData)) :
    ∀ bs out, processScalingAux b bs input = .ok out →
      scalingBaselineState b bs input = none →
      bs = none ∧ ∀ data, (b, data) ∈ input →
        data.durations = [] ∨ data.scaling_data = [] := by
  induction input with
  | nil =>
    intro bs out _ hstate
    exact ⟨hstate, by simp⟩
  | cons head rest ih =>
    intro bs out hok hstate
    obtain ⟨v, data⟩ := head
    rcases hd : (data.durations.isEmpty || data.scaling_data.isEmpty) with _ | _
    · rcases ht : (data.scaling_data.getLastD ⟨[]⟩).scaling_tests.getLast? with _ | t
      · rw [processScalingAux_cons_error _ _ _ _ _ hd ht] at hok
        exact Except.noConfusion hok
      · by_cases hv : v = b
        · rw [hv] at hstate
          have : scalingBaselineState b bs ((b, data) :: rest) =
              scalingBaselineState b
                (some (mkScalingResult "baseline" (buildStats data.durations)
                  (data.scaling_data.getLastD ⟨[]⟩) t)) rest := by
            simp only [scalingBaselineState, hd, ht]
            simp
          rw [this] at hstate
          exact absurd hstate (scalingBaselineState_some_mono b rest _)
        · have hstate2 : scalingBaselineState b bs rest = none := by
            have : scalingBaselineState b bs ((v, data) :: rest) =
                scalingBaselineState b bs rest := by
              simp only [scalingBaselineState, hd, ht]
              simp [hv]
            rw [this] at hstate
            exact hstate
          cases bs with
          | some bstats =>
            rw [processScalingAux_cons_compare _ _ _ _ _ _ hv hd ht] at hok
            obtain ⟨out1, hok1, rfl⟩ := except_map_eq_ok _ _ _ hok
            obtain ⟨h1, h2⟩ := ih _ _ hok1 hstate2
            exact absurd h1 (by simp)
          | none =>
            rw [processScalingAux_cons_none _ _ _ _ _ hv hd ht] at hok
            obtain ⟨out1, hok1, rfl⟩ := except_map_eq_ok _ _ _ hok
            obtain ⟨h1, h2⟩ := ih _ _ hok1 hstate2
            refine ⟨rfl, fun dd hdd => ?_⟩
            rcases List.mem_cons.mp hdd with heq | hm
            · injection heq with h3 h4
              exact absurd h3.symm hv
            · exact h2 dd hm
    · have hstate2 : scalingBaselineState b bs rest = none := by
        have : scalingBaselineState b bs ((v, data) :: rest) =
            scalingBaselineState b bs rest := by
          simp only [scalingBaselineState, hd]
          simp
        rw [this] at hstate
        exact hstate
      rw [processScalingAux_cons_skip _ _ _ _ _ hd] at hok
      obtain ⟨h1, h2⟩ := ih _ _ hok hstate2
      refine ⟨h1, fun dd hdd => ?_⟩
      rcases List.mem_cons.mp hdd with heq | hm
      · injection heq with h3 h4
        rw [h4]
        rcases Bool.or_eq_true_iff.mp hd with he | he
        · exact Or.inl (List.isEmpty_iff.mp he)
        · exact Or.inr (List.isEmpty_iff.mp he)
      · exact h2 dd hm

/-- If no entry carries the baseline version with nonempty series, the scaling
baseline state stays `none`. -/
theorem scalingBaselineState_none_of_empty (b : String)
    (input : List (String × ScalingVersionData)) :
    ∀ bs, bs = none →
      (∀ data, (b, data) ∈ input →
        data.durations = [] ∨ data.scaling_data = []) →
      scalingBaselineState b bs input = none := by
  induction input with
  | nil => intro bs h1 _; simpa [scalingBaselineState] using h1
  | cons head rest ih =>
    intro bs h1 h2
    obtain ⟨v, data⟩ := head
    subst h1
    have hrest : ∀ data, (b, data) ∈ rest →
        data.durations = [] ∨ data.scaling_data = [] :=
      fun dd hdd => h2 dd (.tail _ hdd)
    rcases hd : (data.durations.isEmpty || data.scaling_data.isEmpty) with _ | _
    · rcases ht : (data.scaling_data.getLastD ⟨[]⟩).scaling_tests.getLast? with _ | t
      · have : scalingBaselineState b none ((v, data) :: rest) =
            scalingBaselineState b none rest := by
          simp only [scalingBaselineState, hd, ht]
          simp
        rw [this]
        exact ih none rfl hrest
      · by_cases hv : v = b
        · exfalso
          rcases h2 data (by rw [hv]; exact .head _) with he | he <;>
            simp [he] at hd
        · have : scalingBaselineState b none ((v, data) :: rest) =
              scalingBaselineState b none rest := by
            simp only [scalingBaselineState, hd, ht]
            simp [hv]
          rw [this]
          exact ih none rfl hrest
    · have : scalingBaselineState b none ((v, data) :: rest) =
          scalingBaselineState b none rest := by
        simp only [scalingBaselineState, hd]
        simp
      rw [this]
      exact ih none rfl hrest

/-- C4 counterexample: with the baseline absent, `_process_benchmark_results`
still stores a relative-performance figure (the placeholder `100`) on the
non-baseline result, so the result does carry a relative percentage. -/
theorem c4_counterexample_regular_relative_set_without_baseline :
    ((process_benchmark_results_regular "3.12.7" [("3.13.0", [1])]).lookup
        "3.13.0").bind (fun r => r.relative_performance) = some 100 ∧
    (some (100 : ℚ) ≠ (none : Option ℚ)) := by
  exact ⟨rfl, by simp⟩

/-- C4 (amended): without baseline statistics no relative figure is computed
*from the baseline*: the scaling path leaves `relative_performance` unset
(status stays `comparison`), while the regular path stores the fixed
placeholder `100` together with status `no_baseline`. -/
theorem c4_amended_no_baseline_placeholder (b v : String) (d : List ℚ)
    (rest : List (String × List ℚ)) (data : ScalingVersionData)
    (restS : List (String × ScalingVersionData)) (t : ScalingTest)
    (hv : v ≠ b) (hd : d.isEmpty = false)
    (hds : (data.durations.isEmpty || data.scaling_data.isEmpty) = false)
    (ht : (data.scaling_data.getLastD ⟨[]⟩).scaling_tests.getLast? = some t) :
    (processRegularAux b none ((v, d) :: rest) =
      (v, { status := "no_baseline", duration := (buildStats d).mean,
            relative_performance := some (100 : ℚ),
            statistical_data := some (buildStats d) }) ::
        processRegularAux b none rest) ∧
    (processScalingAux b none ((v, data) :: restS) =
      (processScalingAux b none restS).map
        (fun out => (v, mkScalingResult "comparison" (buildStats data.durations)
          (data.scaling_data.getLastD ⟨[]⟩) t) :: out)) ∧
    (mkScalingResult "comparison" (buildStats data.durations)
        (data.scaling_data.getLastD ⟨[]⟩) t).relative_performance = none ∧
    (mkScalingResult "comparison" (buildStats data.durations)
        (data.scaling_data.getLastD ⟨[]⟩) t).status = "comparison" :=
  ⟨processRegularAux_cons_no_baseline b v d rest hv hd,
   processScalingAux_cons_none b v data restS t hv hds ht,
   rfl, rfl⟩

/-- Closed instance of `c4_amended_no_baseline_placeholder` at one-entry
inputs with version `"v"`, no baseline in sight. -/
theorem c4_amended_no_baseline_placeholder_witness :
    (processRegularAux "b" none [("v", [1])] =
      ("v", { status := "no_baseline", duration := (buildStats [1]).mean,
              relative_performance := some (100 : ℚ),
              statistical_data := some (buildStats [1]) }) ::
        processRegularAux "b" none []) ∧
    (processScalingAux "b" none
        [("v", (⟨[1], [⟨[⟨2, 1, 1, none, none, none⟩]⟩]⟩ : ScalingVersionData))] =
      (processScalingAux "b" none []).map
        (fun out => ("v", mkScalingResult "comparison"
          (buildStats (⟨[1], [⟨[⟨2, 1, 1, none, none, none⟩]⟩]⟩ :
            ScalingVersionData).durations)
          ((⟨[1], [⟨[⟨2, 1, 1, none, none, none⟩]⟩]⟩ :
            ScalingVersionData).scaling_data.getLastD ⟨[]⟩)
          ⟨2, 1, 1, none, none, none⟩) :: out)) ∧
    (mkScalingResult "comparison"
        (buildStats (⟨[1], [⟨[⟨2, 1, 1, none, none, none⟩]⟩]⟩ :
          ScalingVersionData).durations)
        ((⟨[1], [⟨[⟨2, 1, 1, none, none, none⟩]⟩]⟩ :
          ScalingVersionData).scaling_data.getLastD ⟨[]⟩)
        ⟨2, 1, 1, none, none, none⟩).relative_performance = none ∧
    (mkScalingResult "comparison"
        (buildStats (⟨[1], [⟨[⟨2, 1, 1, none, none, none⟩]⟩]⟩ :
          ScalingVersionData).durations)
        ((⟨[1], [⟨[⟨2, 1, 1, none, none, none⟩]⟩]⟩ :
          ScalingVersionData).scaling_data.getLastD ⟨[]⟩)
        ⟨2, 1, 1, none, none, none⟩).status = "comparison" :=
  c4_amended_no_baseline_placeholder "b" "v" [1] []
    ⟨[1], [⟨[⟨2, 1, 1, none, none, none⟩]⟩]⟩ [] ⟨2, 1, 1, none, none, none⟩
    (by decide) rfl rfl rfl

/-- C2 counterexample: in `_process_scaling_results` the stored relative
performance is the ratio of scaling factors (speedups), not of the builds'
timings: with both builds at mean duration `1` (timing ratio `100`) but
speedups `4` vs `2`, the stored figure is `200`. -/
theorem c2_counterexample_scaling_relative_not_timing_ratio :
    ((process_scaling_results "b"
        [("b", ⟨[1], [⟨[⟨1, 1, 2, none, none, none⟩]⟩]⟩),
         ("v", ⟨[1], [⟨[⟨1, 1, 4, none, none, none⟩]⟩]⟩)]).toOption.bind
      (fun out => (out.lookup "v").bind
        (fun r => r.relative_performance))) = some 200 ∧
    (buildStats [1]).mean / (buildStats [1]).mean * 100 = 100 ∧
    (200 : ℚ) ≠ 100 := by
  refine ⟨?_, ?_, by norm_num⟩
  · show (processScalingAux "b" none _).toOption.bind _ = _
    rw [processScalingAux_cons_baseline "b" none
        ⟨[1], [⟨[⟨1, 1, 2, none, none, none⟩]⟩]⟩
        [("v", ⟨[1], [⟨[⟨1, 1, 4, none, none, none⟩]⟩]⟩)]
        ⟨1, 1, 2, none, none, none⟩ rfl rfl,
      processScalingAux_cons_compare "b" "v" _
        ⟨[1], [⟨[⟨1, 1, 4, none, none, none⟩]⟩]⟩ []
        ⟨1, 1, 4, none, none, none⟩ (by decide) rfl rfl]
    show some ((4 : ℚ) / 2 * 100) = some 200
    norm_num
  · show statistics_mean [1] / statistics_mean [1] * 100 = 100
    norm_num [statistics_mean]

/-- C2 (amended): for a non-baseline build processed with the baseline
present, the regular path stores `relative_performance` equal to
(mean duration of the build / mean duration of the baseline) × 100, while
`_process_scaling_results` stores (scaling factor of the build / scaling
factor of the baseline) × 100 — a ratio of parallel speedups, not of
timings. -/
theorem c2_amended_relative_performance_formulas (b v : String) (d : List ℚ)
    (rest : List (String × List ℚ)) (bstatsR : StatisticalResult)
    (data : ScalingVersionData) (restS : List (String × ScalingVersionData))
    (bstatsS : ScalingBenchmarkResult) (t : ScalingTest)
    (hv : v ≠ b) (hd : d.isEmpty = false)
    (hds : (data.durations.isEmpty || data.scaling_data.isEmpty) = false)
    (ht : (data.scaling_data.getLastD ⟨[]⟩).scaling_tests.getLast? = some t) :
    (processRegularAux b (some bstatsR) ((v, d) :: rest) =
      (v, { status := determine_performance_status
              ((buildStats d).mean / bstatsR.mean * 100) false
            duration := (buildStats d).mean
            relative_performance := some ((buildStats d).mean / bstatsR.mean * 100)
            statistical_data := some (buildStats d) }) ::
        processRegularAux b (some bstatsR) rest) ∧
    (processScalingAux b (some bstatsS) ((v, data) :: restS) =
      (processScalingAux b (some bstatsS) restS).map
        (fun out =>
          (v, { mkScalingResult "comparison" (buildStats data.durations)
                  (data.scaling_data.getLastD ⟨[]⟩) t with
                relative_performance :=
                  some (t.speedup / bstatsS.scaling_factor * 100)
                status := determine_performance_status
                  (t.speedup / bstatsS.scaling_factor * 100) true }) :: out)) :=
  ⟨processRegularAux_cons_compare b v d rest bstatsR hv hd,
   processScalingAux_cons_compare b v bstatsS data restS t hv hds ht⟩

/-- Closed instance of `c2_amended_relative_performance_formulas` with
baseline statistics from `[2]` (regular) and a baseline scaling result of
speedup 2 (scaling). -/
theorem c2_amended_relative_performance_formulas_witness :
    (processRegularAux "b" (some (buildStats [2])) [("v", [1])] =
      ("v", { status := determine_performance_status
                ((buildStats [1]).mean / (buildStats [2]).mean * 100) false
              duration := (buildStats [1]).mean
              relative_performance :=
                some ((buildStats [1]).mean / (buildStats [2]).mean * 100)
              statistical_data := some (buildStats [1]) }) ::
        processRegularAux "b" (some (buildStats [2])) []) ∧
    (processScalingAux "b"
        (some (mkScalingResult "baseline" (buildStats [1])
          ⟨[⟨1, 1, 2, none, none, none⟩]⟩ ⟨1, 1, 2, none, none, none⟩))
        [("v", (⟨[1], [⟨[⟨1, 1, 4, none, none, none⟩]⟩]⟩ : ScalingVersionData))] =
      (processScalingAux "b"
          (some (mkScalingResult "baseline" (buildStats [1])
            ⟨[⟨1, 1, 2, none, none, none⟩]⟩ ⟨1, 1, 2, none, none, none⟩)) []).map
        (fun out =>
          ("v", { mkScalingResult "comparison"
                    (buildStats (⟨[1], [⟨[⟨1, 1, 4, none, none, none⟩]⟩]⟩ :
                      ScalingVersionData).durations)
                    ((⟨[1], [⟨[⟨1, 1, 4, none, none, none⟩]⟩]⟩ :
                      ScalingVersionData).scaling_data.getLastD ⟨[]⟩)
                    ⟨1, 1, 4, none, none, none⟩ with
                  relative_performance :=
                    some ((⟨1, 1, 4, none, none, none⟩ : ScalingTest).speedup /
                      (mkScalingResult "baseline" (buildStats [1])
                        ⟨[⟨1, 1, 2, none, none, none⟩]⟩
                        ⟨1, 1, 2, none, none, none⟩).scaling_factor * 100)
                  status := determine_performance_status
                    ((⟨1, 1, 4, none, none, none⟩ : ScalingTest).speedup /
                      (mkScalingResult "baseline" (buildStats [1])
                        ⟨[⟨1, 1, 2, none, none, none⟩]⟩
                        ⟨1, 1, 2, none, none, none⟩).scaling_factor * 100) true }) ::
            out)) :=
  c2_amended_relative_performance_formulas "b" "v" [1] [] (buildStats [2])
    ⟨[1], [⟨[⟨1, 1, 4, none, none, none⟩]⟩]⟩ []
    (mkScalingResult "baseline" (buildStats [1])
      ⟨[⟨1, 1, 2, none, none, none⟩]⟩ ⟨1, 1, 2, none, none, none⟩)
    ⟨1, 1, 4, none, none, none⟩
    (by decide) rfl rfl rfl

/-- C9 counterexample: the baseline version occurs *earlier* in the iteration
order than `"3.13.0"`, yet because its duration list is empty it is skipped and
the later version is not compared: its status is `no_baseline`, not one of the
comparison buckets. -/
theorem c9_counterexample_baseline_earlier_but_empty :
    (((process_benchmark_results_regular "3.12.7"
        [("3.12.7", ([] : List ℚ)), ("3.13.0", [1])]).lookup "3.13.0").map
      (fun r => r.status)) = some "no_baseline" ∧
    ("no_baseline" ≠ "improved" ∧ "no_baseline" ≠ "similar" ∧
      "no_baseline" ≠ "degraded") := by
  refine ⟨?_, by decide, by decide, by decide⟩
  show ((processRegularAux "3.12.7" none _).lookup "3.13.0").map _ = _
  rw [processRegularAux_cons_skip "3.12.7" none "3.12.7" [] [("3.13.0", [1])] rfl,
    processRegularAux_cons_no_baseline "3.12.7" "3.13.0" [1] [] (by decide) rfl,
    lookup_cons_self]
  rfl

/-- C9 (amended): a non-baseline version is compared against the baseline iff
an entry of the baseline version with a *nonempty* series occurs earlier in
the iteration order (nonempty durations and scaling data, with a nonempty last
`scaling_tests`, for the scaling path); otherwise it is processed as if no
baseline exists — status `no_baseline` with placeholder `100` in the regular
path, untouched `comparison` status in the scaling path. -/
theorem c9_amended_comparison_iff_baseline_earlier
    (b v : String) (d : List ℚ) (pre post : List (String × List ℚ))
    (data : ScalingVersionData) (t : ScalingTest)
    (preS postS : List (String × ScalingVersionData))
    (hv : v ≠ b) (hd : d.isEmpty = false)
    (hvpre : ∀ p ∈ pre, p.1 ≠ v)
    (hds : (data.durations.isEmpty || data.scaling_data.isEmpty) = false)
    (ht : (data.scaling_data.getLastD ⟨[]⟩).scaling_tests.getLast? = some t)
    (hvpreS : ∀ p ∈ preS, p.1 ≠ v) :
    ((process_benchmark_results_regular b (pre ++ (v, d) :: post)).lookup v =
      some (match regularBaselineState b none pre with
        | some bstats =>
          { status := determine_performance_status
              ((buildStats d).mean / bstats.mean * 100) false
            duration := (buildStats d).mean
            relative_performance := some ((buildStats d).mean / bstats.mean * 100)
            statistical_data := some (buildStats d) }
        | none =>
          { status := "no_baseline", duration := (buildStats d).mean,
            relative_performance := some (100 : ℚ),
            statistical_data := some (buildStats d) })) ∧
    (regularBaselineState b none pre = none ↔
      ∀ dd, (b, dd) ∈ pre → dd = []) ∧
    (∀ out, process_scaling_results b (preS ++ (v, data) :: postS) = .ok out →
      out.lookup v =
        some (match scalingBaselineState b none preS with
          | some bstats =>
            { mkScalingResult "comparison" (buildStats data.durations)
                (data.scaling_data.getLastD ⟨[]⟩) t with
              relative_performance :=
                some (t.speedup / bstats.scaling_factor * 100)
              status := determine_performance_status
                (t.speedup / bstats.scaling_factor * 100) true }
          | none =>
            mkScalingResult "comparison" (buildStats data.durations)
              (data.scaling_data.getLastD ⟨[]⟩) t)) ∧
    (∀ out, process_scaling_results b (preS ++ (v, data) :: postS) = .ok out →
      (scalingBaselineState b none preS = none ↔
        ∀ dd, (b, dd) ∈ preS →
          dd.durations = [] ∨ dd.scaling_data = [])) := by
  refine ⟨?_, ?_, ?_, ?_⟩
  · show (processRegularAux b none (pre ++ (v, d) :: post)).lookup v = _
    rw [processRegularAux_append b pre ((v, d) :: post) none,
      lookup_append_of_none _ _ _
        (processRegularAux_lookup_none b v none pre
          (fun dd hdd => absurd rfl (hvpre (v, dd) hdd)))]
    cases hstate : regularBaselineState b none pre with
    | some bstats =>
      rw [processRegularAux_cons_compare _ _ _ _ _ hv hd, lookup_cons_self]
    | none =>
      rw [processRegularAux_cons_no_baseline _ _ _ _ hv hd, lookup_cons_self]
  · rw [regularBaselineState_none_iff]
    simp
  · intro out hok
    replace hok : processScalingAux b none (preS ++ (v, data) :: postS) = .ok out := hok
    rw [processScalingAux_append b preS ((v, data) :: postS) none] at hok
    cases h1 : processScalingAux b none preS with
    | error e =>
      rw [h1] at hok
      exact absurd hok (by simp [Except.bind])
    | ok out1 =>
      rw [h1] at hok
      simp only [Except.bind] at hok
      obtain ⟨out2, hok2, rfl⟩ := except_map_eq_ok _ _ _ hok
      rw [lookup_append_of_none _ _ _
        (processScalingAux_lookup_none b v none preS
          (fun dd hdd => absurd rfl (hvpreS (v, dd) hdd)) out1 h1)]
      cases hstate : scalingBaselineState b none preS with
      | some bstats =>
        rw [hstate, processScalingAux_cons_compare _ _ _ _ _ _ hv hds ht] at hok2
        obtain ⟨out3, hok3, rfl⟩ := except_map_eq_ok _ _ _ hok2
        rw [lookup_cons_self]
      | none =>
        rw [hstate, processScalingAux_cons_none _ _ _ _ _ hv hds ht] at hok2
        obtain ⟨out3, hok3, rfl⟩ := except_map_eq_ok _ _ _ hok2
        rw [lookup_cons_self]
  · intro out hok
    replace hok : processScalingAux b none (preS ++ (v, data) :: postS) = .ok out := hok
    rw [processScalingAux_append b preS ((v, data) :: postS) none] at hok
    cases h1 : processScalingAux b none preS with
    | error e =>
      rw [h1] at hok
      exact absurd hok (by simp [Except.bind])
    | ok out1 =>
      constructor
      · intro hstate
        exact (scalingBaselineState_none_spec b preS none out1 h1 hstate).2
      · intro hall
        exact scalingBaselineState_none_of_empty b preS none rfl hall

/-- Closed instance of `c9_amended_comparison_iff_baseline_earlier`: the
baseline `"b"` precedes `"v"` with a nonempty series in the regular input, so
`"v"` is compared; the scaling input has no baseline before `"v"`, so its
result keeps status `comparison` with no relative figure. -/
theorem c9_amended_comparison_iff_baseline_earlier_witness :
    ((process_benchmark_results_regular "b" [("b", [2]), ("v", [1])]).lookup "v" =
      some { status := determine_performance_status
               ((buildStats [1]).mean / (buildStats [2]).mean * 100) false
             duration := (buildStats [1]).mean
             relative_performance :=
               some ((buildStats [1]).mean / (buildStats [2]).mean * 100)
             statistical_data := some (buildStats [1]) }) ∧
    (regularBaselineState "b" none [("b", [2])] = none ↔
      ∀ dd : List ℚ, ("b", dd) ∈ [("b", [2])] → dd = []) ∧
    ([("v", mkScalingResult "comparison" (buildStats [1])
        ⟨[⟨2, 1, 3, none, none, none⟩]⟩ ⟨2, 1, 3, none, none, none⟩)].lookup "v" =
      some (mkScalingResult "comparison" (buildStats [1])
        ⟨[⟨2, 1, 3, none, none, none⟩]⟩ ⟨2, 1, 3, none, none, none⟩)) ∧
    (scalingBaselineState "b" none [] = none ↔
      ∀ dd, ("b", dd) ∈ ([] : List (String × ScalingVersionData)) →
        dd.durations = [] ∨ dd.scaling_data = []) := by
  obtain ⟨h1, h2, h3, h4⟩ := c9_amended_comparison_iff_baseline_earlier
    "b" "v" [1] [("b", [2])] []
    ⟨[1], [⟨[⟨2, 1, 3, none, none, none⟩]⟩]⟩ ⟨2, 1, 3, none, none, none⟩
    [] [] (by decide) rfl (by decide) rfl rfl (by simp)
  exact ⟨h1, h2,
    h3 [("v", mkScalingResult "comparison" (buildStats [1])
      ⟨[⟨2, 1, 3, none, none, none⟩]⟩ ⟨2, 1, 3, none, none, none⟩)] rfl,
    h4 [("v", mkScalingResult "comparison" (buildStats [1])
      ⟨[⟨2, 1, 3, none, none, none⟩]⟩ ⟨2, 1, 3, none, none, none⟩)] rfl⟩

end PyBench
